import Mathlib

/-!
Verification of the route-tree localization engine (`src/src/page-manager.ts`,
class `PageManager`) of nuxt-i18n-micro against its natural-language
specification.

The TypeScript class is embedded shallowly: the mutating methods become pure
functions that return the updated page node together with the list of sibling
routes they append (`additionalRoutes`), and the JS objects
(`globalLocaleRoutes`, `localizedPaths`) become association lists with the
write-over semantics of JS property assignment.

The helper module `utils.ts` and the page-config extractor
(`extractDefineI18nRouteConfig` plus the file read) are not part of the given
sources; each of their functions is modelled from the specification's words and
carries a doc comment starting with `Modelled from the spec:`.  The page-config
extractor is kept abstract as a function parameter `es : String → Option LocaleMap`
(file path to extracted per-locale routes), matching §6 of the spec.
-/

set_option linter.unusedVariables false

namespace I18n

/-- A configured locale: identifier `code` plus display/region metadata (§3).
The synthetic fallback locale consists only of a code (`iso := none`). -/
structure Locale where
  code : String
  iso : Option String := none
deriving DecidableEq, Repr

/-- A per-locale custom-path mapping (`Record<string, string>`). -/
abbrev LocaleMap := List (String × String)

/-- The localized-path index `localizedPaths` (normalized full path ↦ locale ↦ path). -/
abbrev PathIndex := List (String × LocaleMap)

/-- One entry of the global override table `globalLocaleRoutes`
(`Record<string, string> | false | boolean`): `excluded` is the literal `false`,
`enabled` the literal `true`, `custom m` an object of per-locale paths. -/
inductive GlobalRouteEntry : Type where
  | excluded : GlobalRouteEntry
  | enabled : GlobalRouteEntry
  | custom : LocaleMap → GlobalRouteEntry
deriving DecidableEq, Repr

/-- A `NuxtPage` route node: `name?`, `path`, `file?`, `redirect?`, `children`
(the TS `children?: NuxtPage[]`; `undefined` and `[]` are conflated since the
source only ever reads `children ?? []` / `children?.length`). -/
inductive NuxtPage : Type where
  | mk : Option String → String → Option String → Option String → List NuxtPage → NuxtPage

def NuxtPage.name : NuxtPage → Option String
  | .mk n _ _ _ _ => n

def NuxtPage.path : NuxtPage → String
  | .mk _ p _ _ _ => p

def NuxtPage.file : NuxtPage → Option String
  | .mk _ _ f _ _ => f

def NuxtPage.redirect : NuxtPage → Option String
  | .mk _ _ _ r _ => r

def NuxtPage.children : NuxtPage → List NuxtPage
  | .mk _ _ _ _ cs => cs

/-- In-place assignment `page.path = ...`. -/
def NuxtPage.setPath : NuxtPage → String → NuxtPage
  | .mk n _ f r cs, p => .mk n p f r cs

/-- In-place assignment `page.children = ...`. -/
def NuxtPage.setChildren : NuxtPage → List NuxtPage → NuxtPage
  | .mk n p f r _, cs => .mk n p f r cs

/-- The spread `{ ...page, name, path, children }` used by the route builders:
`file` and `redirect` are copied from the source node. -/
def NuxtPage.spreadWith : NuxtPage → Option String → String → List NuxtPage → NuxtPage
  | .mk _ _ f r _, n, p, cs => .mk n p f r cs

/-- JS object read `m[k]`: first matching key (association lists here are kept
in reverse-chronological write order, so the first match is the last write). -/
def lookupA {α : Type} (m : List (String × α)) (k : String) : Option α :=
  (m.find? (fun e => e.1 == k)).map (fun e => e.2)

/-- The chained read `localizedPaths[p]?.[c]`. -/
def lookup2 (idx : PathIndex) (p c : String) : Option String :=
  match lookupA idx p with
  | some m => lookupA m c
  | none => none

/-- JS truthiness of an optional string (`undefined` and `''` are falsy). -/
def truthyStr : Option String → Bool
  | none => false
  | some s => s != ""

/-- JS truthiness of a `globalLocaleRoutes` entry (`undefined` and `false` are
falsy; `true` and every object, including `{}`, are truthy). -/
def truthyEntry : Option GlobalRouteEntry → Bool
  | none => false
  | some .excluded => false
  | some .enabled => true
  | some (.custom _) => true

/-- Removal of one key from an association list (used to state that an
empty-string entry behaves like an absent entry). -/
def eraseKey {α : Type} (m : List (String × α)) (k : String) : List (String × α) :=
  m.filter (fun e => e.1 != k)

/-- Splitting a character list on the separator, keeping split pieces. -/
def splitSlashAux : List Char → List Char → List String
  | [], cur => [String.mk cur.reverse]
  | c :: rest, cur =>
    if c = '/' then String.mk cur.reverse :: splitSlashAux rest []
    else splitSlashAux rest (c :: cur)

/-- The non-empty `/`-separated segments of a path. -/
def pathSegments (s : String) : List String :=
  (splitSlashAux s.data []).filter (fun seg => seg != "")

/-- Modelled from the spec: `normalizePath` of `utils.ts` (not under `src/`).
§4.3 "Normalization: collapse repeated separators, enforce single leading
separator, strip trailing separator except for the root." -/
def normalizePath (routePath : String) : String :=
  let segs := pathSegments routePath
  if segs.isEmpty then "/" else "/" ++ String.intercalate "/" segs

/-- Modelled from the spec: `path.join` as used by the source — concatenation
with a separator; every caller normalizes the result, which collapses the
duplicate separators this may introduce (§4.3 normalization rule). -/
def joinPath (a b : String) : String := a ++ "/" ++ b

/-- Modelled from the spec: `isLocaleDefault` of `utils.ts` (not under `src/`).
§4.3.1 designates as the in-place locale the default locale "always when
[`includeDefaultLocaleRoute` is] false and this is the default locale"; with the
include flag true no locale receives in-place handling, which is what makes the
invariants of §3/§4.3.2 (all generated names suffixed, the default locale also
getting its own prefixed route) hold. -/
def isLocaleDefault (code : String) (defaultLocale : Locale) (includeDefaultLocaleRoute : Bool) : Bool :=
  code == defaultLocale.code && !includeDefaultLocaleRoute

/-- Modelled from the spec: `isPageRedirectOnly` of `utils.ts` (not under
`src/`). §3: "a page with no file and no children and a `redirect` property is
excluded from localization". -/
def isPageRedirectOnly (p : NuxtPage) : Bool :=
  p.redirect.isSome && p.file.isNone && p.children.isEmpty

/-- Modelled from the spec: `cloneArray` of `utils.ts` (not under `src/`).
§4.3.2 step 1 captures the original children as a value copy; in a pure
embedding a copy is the list itself. -/
def cloneArray {α : Type} (l : List α) : List α := l

/-- Modelled from the spec: `buildRouteName` of `utils.ts` (not under `src/`).
§4.3.1 and §4.3.2: every appended sibling is named `localized-{name}-{locale}`,
the grouped route taking the first code of its set (scenario A:
`localized-about-fr`). -/
def buildRouteName (baseName : String) (localeCode : String) (isCustom : Bool) : String :=
  "localized-" ++ baseName ++ "-" ++ localeCode

/-- Modelled from the spec: `shouldAddLocalePrefix` of `utils.ts` (not under
`src/`). §4.3: "prefix is added when the locale is not the default locale, OR
the locale is the default locale and (`includeDefaultLocaleRoute` is true OR
`forcePrefix` is true)". -/
def shouldAddLocalePrefix (locale : String) (defaultLocale : Locale) (prefixFlag : Bool) (includeDefaultLocaleRoute : Bool) : Bool :=
  locale != defaultLocale.code || (locale == defaultLocale.code && (includeDefaultLocaleRoute || prefixFlag))

/-- Modelled from the spec: `buildFullPath` of `utils.ts` (not under `src/`).
§4.3 "Grouped path": one segment matching any of the codes (alternation) where
a literal code would appear, followed by the unprefixed relative path; for a
single code this is the literal locale prefix of scenarios A/B/D. -/
def buildFullPath (codes : List String) (basePath : String) : String :=
  normalizePath (joinPath ("/" ++ String.intercalate "|" codes) basePath)

/-- Modelled from the spec: `removeLeadingSlash` of `utils.ts` (not under
`src/`): strips the single leading separator so child paths stay relative to
their parent. -/
def removeLeadingSlash (s : String) : String :=
  match s.data with
  | '/' :: rest => String.mk rest
  | _ => s

/-- The `PageManager` instance state set up by the constructor (the mutable
field `localizedPaths` is passed explicitly to the methods that read it,
mirroring the spec's §9 re-expression of the per-instance index). -/
structure PageManager where
  locales : List Locale
  defaultLocale : Locale
  includeDefaultLocaleRoute : Bool
  globalLocaleRoutes : List (String × GlobalRouteEntry)
  activeLocaleCodes : List String
deriving Repr

/-- `findLocaleByCode`. -/
def findLocaleByCode (locales : List Locale) (code : String) : Option Locale :=
  locales.find? (fun locale => locale.code == code)

/-- `computeActiveLocaleCodes` (run on the already-resolved default locale). -/
def computeActiveLocaleCodes (locales : List Locale) (defaultLocale : Locale) (includeDefaultLocaleRoute : Bool) : List String :=
  (locales.filter (fun locale => locale.code != defaultLocale.code || includeDefaultLocaleRoute)).map (fun locale => locale.code)

/-- The `PageManager` constructor: resolve the default locale (falling back to
a synthetic code-only locale), compute the active codes, and default a null
`globalLocaleRoutes` to `{}`. -/
def mkPageManager (locales : List Locale) (defaultLocaleCode : String) (includeDefaultLocaleRoute : Bool) (globalLocaleRoutes : Option (List (String × GlobalRouteEntry))) : PageManager :=
  let d := (findLocaleByCode locales defaultLocaleCode).getD { code := defaultLocaleCode }
  { locales := locales
    defaultLocale := d
    includeDefaultLocaleRoute := includeDefaultLocaleRoute
    globalLocaleRoutes := globalLocaleRoutes.getD []
    activeLocaleCodes := computeActiveLocaleCodes locales d includeDefaultLocaleRoute }

/-- The extractor interface (§6): `extract(fileContents, filePath)` reading a
page's source, abstracted as file path ↦ extracted `localeRoutes` (the core
treats a null/absent result as "no embedded override"). -/
abbrev ExtractorFn := String → Option LocaleMap

/-- The per-page body of `extractLocalizedPaths` minus the recursion into
children: lines 78–98.  When the global entry is falsy (`undefined` or
`false`) the embedded per-page configuration is extracted from the page file;
when it is an object it is recorded directly; a `true` entry records nothing. -/
def extractOwnEntry (pm : PageManager) (es : ExtractorFn) (rootDir parentPath : String) (page : NuxtPage) : PathIndex :=
  let pageName := page.name.getD ""
  let globalLocalePath := lookupA pm.globalLocaleRoutes pageName
  if truthyEntry globalLocalePath = false then
    match page.file with
    | some f =>
      match es (joinPath rootDir f) with
      | some localeRoutes => [(normalizePath (joinPath parentPath page.path), localeRoutes)]
      | none => []
    | none => []
  else
    match globalLocalePath with
    | some (GlobalRouteEntry.custom m) => [(normalizePath (joinPath parentPath page.path), m)]
    | _ => []

mutual

/-- `extractLocalizedPaths` (lines 70–107): one read-only pass building the
localized-path index.  The list is kept in reverse-chronological write order
(`lookupA` takes the first match), so a page's children-entries shadow its own
entry and later pages shadow earlier ones, as JS property assignment does. -/
def extractLocalizedPaths (pm : PageManager) (es : ExtractorFn) (pages : List NuxtPage) (rootDir parentPath : String) : PathIndex :=
  match pages with
  | [] => []
  | page :: rest =>
    extractLocalizedPaths pm es rest rootDir parentPath ++ extractForPage pm es page rootDir parentPath

/-- The full `forEach` body of `extractLocalizedPaths` for one page: its own
entry plus the recursion into its children (lines 100–103), children written
after (hence shadowing) the page's own entry. -/
def extractForPage (pm : PageManager) (es : ExtractorFn) (page : NuxtPage) (rootDir parentPath : String) : PathIndex :=
  match page with
  | NuxtPage.mk n p f r cs =>
    let node := NuxtPage.mk n p f r cs
    let childPart :=
      if cs.length != 0 then
        extractLocalizedPaths pm es cs rootDir (normalizePath (joinPath parentPath p))
      else []
    childPart ++ extractOwnEntry pm es rootDir parentPath node

end

/-- `buildRoutePath` (lines 297–309). -/
def buildRoutePath (pm : PageManager) (localeCodes : List String) (originalPath customPath : String) (isCustom : Bool) : String :=
  if isCustom then
    if pm.includeDefaultLocaleRoute || !(localeCodes.contains pm.defaultLocale.code) then
      buildFullPath localeCodes customPath
    else
      normalizePath customPath
  else
    buildFullPath localeCodes originalPath

/-- `buildLocalizedRouteName` (lines 293–295). -/
def buildLocalizedRouteName (pm : PageManager) (baseName locale : String) (modifyName : Bool) : String :=
  if modifyName && !(isLocaleDefault locale pm.defaultLocale pm.includeDefaultLocaleRoute) then
    "localized-" ++ baseName ++ "-" ++ locale
  else baseName

/-- `buildLocalizedRoutePath` (lines 279–291); `customLocalePaths?.[locale] || routePath`
falls back on a missing or empty custom path. -/
def buildLocalizedRoutePath (pm : PageManager) (routePath locale : String) (customLocalePaths : Option LocaleMap) (prefixFlag : Bool) : String :=
  let basePath :=
    match customLocalePaths with
    | some m =>
      match lookupA m locale with
      | some s => if s != "" then s else routePath
      | none => routePath
    | none => routePath
  let normalizedBasePath := normalizePath basePath
  if shouldAddLocalePrefix locale pm.defaultLocale prefixFlag pm.includeDefaultLocaleRoute then
    buildFullPath [locale] normalizedBasePath
  else normalizedBasePath

/-- `createLocalizedChildRoute` (lines 259–277). -/
def createLocalizedChildRoute (pm : PageManager) (route : NuxtPage) (routePath locale : String) (customLocalePaths : Option LocaleMap) (children : List NuxtPage) (modifyName prefixFlag : Bool) : NuxtPage :=
  let finalPath := buildLocalizedRoutePath pm routePath locale customLocalePaths prefixFlag
  let routeName := buildLocalizedRouteName pm (route.name.getD "") locale modifyName
  route.spreadWith (some routeName) (removeLeadingSlash finalPath) children

mutual

/-- `createLocalizedChildren` (lines 216–224). -/
def createLocalizedChildren (pm : PageManager) (idx : PathIndex) (routes : List NuxtPage) (parentPath : String) (localeCodes : List String) (modifyName prefixFlag : Bool) : List NuxtPage :=
  match routes with
  | [] => []
  | route :: rest =>
    createLocalizedVariants pm idx route parentPath localeCodes modifyName prefixFlag
      ++ createLocalizedChildren pm idx rest parentPath localeCodes modifyName prefixFlag

/-- `createLocalizedVariants` (lines 226–239); the recursion into the route's
children omits `addLocalePrefix`, so it reverts to its default `false`. -/
def createLocalizedVariants (pm : PageManager) (idx : PathIndex) (route : NuxtPage) (parentPath : String) (localeCodes : List String) (modifyName prefixFlag : Bool) : List NuxtPage :=
  match route with
  | NuxtPage.mk n p f r cs =>
    let node := NuxtPage.mk n p f r cs
    let routePath := normalizePath p
    let fullPath := normalizePath (joinPath parentPath routePath)
    let customLocalePaths := lookupA idx fullPath
    let localizedChildren := createLocalizedChildren pm idx cs fullPath localeCodes modifyName false
    localeCodes.map (fun locale =>
      createLocalizedChildRoute pm node routePath locale customLocalePaths localizedChildren modifyName prefixFlag)

end

/-- `createLocalizedRoute` (lines 241–257): the spread `{...page, children, path, name}`
snapshotting the page's current `path`/`name`/`file`/`redirect`. -/
def createLocalizedRoute (pm : PageManager) (idx : PathIndex) (page : NuxtPage) (localeCodes : List String) (originalChildren : List NuxtPage) (isCustom : Bool) (customPath : String := "") : NuxtPage :=
  let routePath := buildRoutePath pm localeCodes page.path customPath isCustom
  let routeName := buildRouteName (page.name.getD "") (localeCodes.headD "") isCustom
  page.spreadWith (some routeName) routePath
    (createLocalizedChildren pm idx originalChildren page.path localeCodes true false)

/-- The `this.locales.forEach` loop of `addCustomGlobalLocalizedRoutes`
(lines 114–127), with the locale list explicit: each iteration either skips a
falsy entry, rewrites the page's `path` in place (in-place locale), or appends
a sibling built from the page's current state. -/
def addCustomGlobalLocalizedRoutesAux (pm : PageManager) (idx : PathIndex) (locs : List Locale) (page : NuxtPage) (customRoutePaths : LocaleMap) : NuxtPage × List NuxtPage :=
  match locs with
  | [] => (page, [])
  | locale :: rest =>
    let customPath := lookupA customRoutePaths locale.code
    if !truthyStr customPath then
      addCustomGlobalLocalizedRoutesAux pm idx rest page customRoutePaths
    else if isLocaleDefault locale.code pm.defaultLocale pm.includeDefaultLocaleRoute then
      addCustomGlobalLocalizedRoutesAux pm idx rest (page.setPath (normalizePath (customPath.getD ""))) customRoutePaths
    else
      let r := createLocalizedRoute pm idx page [locale.code] page.children true (customPath.getD "")
      let out := addCustomGlobalLocalizedRoutesAux pm idx rest page customRoutePaths
      (out.1, r :: out.2)

/-- `addCustomGlobalLocalizedRoutes` (lines 109–128). -/
def addCustomGlobalLocalizedRoutes (pm : PageManager) (idx : PathIndex) (page : NuxtPage) (customRoutePaths : LocaleMap) : NuxtPage × List NuxtPage :=
  addCustomGlobalLocalizedRoutesAux pm idx pm.locales page customRoutePaths

/-- `filterLocaleCodesWithoutCustomPaths` (lines 148–150). -/
def filterLocaleCodesWithoutCustomPaths (pm : PageManager) (idx : PathIndex) (fullPath : String) : List String :=
  pm.activeLocaleCodes.filter (fun code => !truthyStr (lookup2 idx fullPath code))

/-- `mergeChildren` (lines 187–194). -/
def mergeChildren (pm : PageManager) (idx : PathIndex) (originalChildren : List NuxtPage) (parentPath : String) (localeCodes : List String) : List NuxtPage :=
  originalChildren ++ createLocalizedChildren pm idx originalChildren parentPath localeCodes false false

/-- The JS `Map` built from the pre-merge children keeps, per name, the last
child with that name; `Object.assign` then replaces that very element. -/
def lastIdxWithName (cs : List NuxtPage) (n : Option String) : Option Nat :=
  ((cs.enum.filter (fun e => e.2.name == n)).getLast?).map (fun e => e.1)

/-- The merge loop of `adjustRouteForDefaultLocale` (lines 166–180): a
localized child whose name is in the map overwrites (field-wise) the mapped
element; otherwise it is appended.  The map is built once, from the original
`currentChildren`. -/
def mergeByName (currentChildren localizedChildren : List NuxtPage) : List NuxtPage :=
  localizedChildren.foldl
    (fun cur lc =>
      match lastIdxWithName currentChildren lc.name with
      | some i => cur.set i lc
      | none => cur ++ [lc])
    currentChildren

/-- `adjustRouteForDefaultLocale` (lines 152–185): the index is read at the
page's *current* (pre-rewrite) `path`; children are recomputed for the default
locale from the captured original children and merged by name. -/
def adjustRouteForDefaultLocale (pm : PageManager) (idx : PathIndex) (page : NuxtPage) (originalChildren : List NuxtPage) : NuxtPage :=
  let defaultLocalePath := lookup2 idx page.path pm.defaultLocale.code
  let page1 := if truthyStr defaultLocalePath then page.setPath (normalizePath (defaultLocalePath.getD "")) else page
  if originalChildren.length != 0 then
    let currentChildren := page1.children
    let newName := normalizePath (joinPath "/" (page1.name.getD ""))
    let localizedChildren := mergeChildren pm idx originalChildren newName [pm.defaultLocale.code]
    page1.setChildren (mergeByName currentChildren localizedChildren)
  else page1

/-- The `this.locales.forEach` loop of `addCustomLocalizedRoutes`
(lines 202–213), with the locale list explicit: a truthy custom path either
replaces the page's children in place (in-place locale) or appends a dedicated
sibling. -/
def addCustomLocalizedRoutesAux (pm : PageManager) (idx : PathIndex) (locs : List Locale) (page : NuxtPage) (fullPath : String) (originalChildren : List NuxtPage) : NuxtPage × List NuxtPage :=
  match locs with
  | [] => (page, [])
  | locale :: rest =>
    let customPath := lookup2 idx fullPath locale.code
    if !truthyStr customPath then
      addCustomLocalizedRoutesAux pm idx rest page fullPath originalChildren
    else if isLocaleDefault locale.code pm.defaultLocale pm.includeDefaultLocaleRoute then
      addCustomLocalizedRoutesAux pm idx rest
        (page.setChildren (createLocalizedChildren pm idx originalChildren "" [locale.code] false false))
        fullPath originalChildren
    else
      let r := createLocalizedRoute pm idx page [locale.code] originalChildren true (customPath.getD "")
      let out := addCustomLocalizedRoutesAux pm idx rest page fullPath originalChildren
      (out.1, r :: out.2)

/-- `addCustomLocalizedRoutes` (lines 196–214). -/
def addCustomLocalizedRoutes (pm : PageManager) (idx : PathIndex) (page : NuxtPage) (fullPath : String) (originalChildren : List NuxtPage) : NuxtPage × List NuxtPage :=
  addCustomLocalizedRoutesAux pm idx pm.locales page fullPath originalChildren

/-- `localizePage` (lines 130–146): skip redirect-only pages; push the grouped
route for the active locales without custom paths; then the custom-path
siblings; finally adjust the node for the default locale. -/
def localizePage (pm : PageManager) (idx : PathIndex) (page : NuxtPage) : NuxtPage × List NuxtPage :=
  if isPageRedirectOnly page then (page, [])
  else
    let originalChildren := cloneArray page.children
    let normalizedFullPath := normalizePath page.path
    let localeCodesWithoutCustomPaths := filterLocaleCodesWithoutCustomPaths pm idx normalizedFullPath
    let grouped :=
      if localeCodesWithoutCustomPaths.length != 0 then
        [createLocalizedRoute pm idx page localeCodesWithoutCustomPaths originalChildren false]
      else []
    let afterCustom := addCustomLocalizedRoutes pm idx page normalizedFullPath originalChildren
    (adjustRouteForDefaultLocale pm idx afterCustom.1 originalChildren, grouped ++ afterCustom.2)

/-- The `pages.forEach` body of `extendPages` (lines 48–65): three-way dispatch
on the page's `globalLocaleRoutes` entry; returns the page's final in-place
state and the sibling routes it contributes to `additionalRoutes`. -/
def processPage (pm : PageManager) (idx : PathIndex) (page : NuxtPage) : NuxtPage × List NuxtPage :=
  match lookupA pm.globalLocaleRoutes (page.name.getD "") with
  | some GlobalRouteEntry.excluded => (page, [])
  | some (GlobalRouteEntry.custom m) => addCustomGlobalLocalizedRoutes pm idx page m
  | some GlobalRouteEntry.enabled => localizePage pm idx page
  | none => localizePage pm idx page

/-- `extendPages` (lines 44–68): index first, then the localization pass, then
`pages.push(...additionalRoutes)` — the processed pages in place followed by
every page's appended siblings in page order. -/
def extendPages (pm : PageManager) (es : ExtractorFn) (pages : List NuxtPage) (rootDir : String) : List NuxtPage :=
  let idx := extractLocalizedPaths pm es pages rootDir ""
  let results := pages.map (processPage pm idx)
  results.map (fun r => r.1) ++ (results.map (fun r => r.2)).flatten

/-! ### Frame lemmas about the in-place mutations

The source only ever assigns `page.path` and `page.children`; these lemmas
track which fields each embedded mutation step can touch. -/

@[simp] lemma NuxtPage.name_setPath (p : NuxtPage) (s : String) : (p.setPath s).name = p.name := by
  cases p; rfl

@[simp] lemma NuxtPage.file_setPath (p : NuxtPage) (s : String) : (p.setPath s).file = p.file := by
  cases p; rfl

@[simp] lemma NuxtPage.redirect_setPath (p : NuxtPage) (s : String) : (p.setPath s).redirect = p.redirect := by
  cases p; rfl

@[simp] lemma NuxtPage.children_setPath (p : NuxtPage) (s : String) : (p.setPath s).children = p.children := by
  cases p; rfl

@[simp] lemma NuxtPage.name_setChildren (p : NuxtPage) (cs : List NuxtPage) : (p.setChildren cs).name = p.name := by
  cases p; rfl

@[simp] lemma NuxtPage.path_setChildren (p : NuxtPage) (cs : List NuxtPage) : (p.setChildren cs).path = p.path := by
  cases p; rfl

@[simp] lemma NuxtPage.file_setChildren (p : NuxtPage) (cs : List NuxtPage) : (p.setChildren cs).file = p.file := by
  cases p; rfl

@[simp] lemma NuxtPage.redirect_setChildren (p : NuxtPage) (cs : List NuxtPage) : (p.setChildren cs).redirect = p.redirect := by
  cases p; rfl

@[simp] lemma NuxtPage.name_spreadWith (p : NuxtPage) (n : Option String) (s : String) (cs : List NuxtPage) :
    (p.spreadWith n s cs).name = n := by
  cases p; rfl

@[simp] lemma NuxtPage.path_spreadWith (p : NuxtPage) (n : Option String) (s : String) (cs : List NuxtPage) :
    (p.spreadWith n s cs).path = s := by
  cases p; rfl

/-- The custom-mode loop only rewrites `path`: `name`, `file`, `redirect` and
`children` of the in-place node survive it. -/
lemma addCGAux_fst_frame (pm : PageManager) (idx : PathIndex) :
    ∀ (locs : List Locale) (page : NuxtPage) (m : LocaleMap),
      ((addCustomGlobalLocalizedRoutesAux pm idx locs page m).1).name = page.name ∧
      ((addCustomGlobalLocalizedRoutesAux pm idx locs page m).1).file = page.file ∧
      ((addCustomGlobalLocalizedRoutesAux pm idx locs page m).1).redirect = page.redirect ∧
      ((addCustomGlobalLocalizedRoutesAux pm idx locs page m).1).children = page.children := by
  intro locs
  induction locs with
  | nil => intro page m; simp [addCustomGlobalLocalizedRoutesAux]
  | cons l ls ih =>
    intro page m
    simp only [addCustomGlobalLocalizedRoutesAux]
    by_cases h1 : truthyStr (lookupA m l.code)
    · simp only [h1, Bool.not_true, Bool.false_eq_true, if_false]
      by_cases h2 : isLocaleDefault l.code pm.defaultLocale pm.includeDefaultLocaleRoute
      · simpa [h2] using ih (page.setPath (normalizePath ((lookupA m l.code).getD ""))) m
      · simpa [h2] using ih page m
    · simpa [h1] using ih page m

/-- The default-mode custom-path loop only rewrites `children`: `name`, `path`,
`file` and `redirect` of the in-place node survive it. -/
lemma addCLAux_fst_frame (pm : PageManager) (idx : PathIndex) :
    ∀ (locs : List Locale) (page : NuxtPage) (fp : String) (oc : List NuxtPage),
      ((addCustomLocalizedRoutesAux pm idx locs page fp oc).1).name = page.name ∧
      ((addCustomLocalizedRoutesAux pm idx locs page fp oc).1).path = page.path ∧
      ((addCustomLocalizedRoutesAux pm idx locs page fp oc).1).file = page.file ∧
      ((addCustomLocalizedRoutesAux pm idx locs page fp oc).1).redirect = page.redirect := by
  intro locs
  induction locs with
  | nil => intro page fp oc; simp [addCustomLocalizedRoutesAux]
  | cons l ls ih =>
    intro page fp oc
    simp only [addCustomLocalizedRoutesAux]
    by_cases h1 : truthyStr (lookup2 idx fp l.code)
    · simp only [h1, Bool.not_true, Bool.false_eq_true, if_false]
      by_cases h2 : isLocaleDefault l.code pm.defaultLocale pm.includeDefaultLocaleRoute
      · simpa [h2] using
          ih (page.setChildren (createLocalizedChildren pm idx oc "" [l.code] false false)) fp oc
      · simpa [h2] using ih page fp oc
    · simpa [h1] using ih page fp oc

/-- `adjustRouteForDefaultLocale` only rewrites `path` and `children`. -/
lemma adjust_frame (pm : PageManager) (idx : PathIndex) (page : NuxtPage) (oc : List NuxtPage) :
    (adjustRouteForDefaultLocale pm idx page oc).name = page.name ∧
    (adjustRouteForDefaultLocale pm idx page oc).file = page.file ∧
    (adjustRouteForDefaultLocale pm idx page oc).redirect = page.redirect := by
  simp only [adjustRouteForDefaultLocale]
  by_cases h1 : truthyStr (lookup2 idx page.path pm.defaultLocale.code) <;>
    by_cases h2 : oc.length != 0 <;> simp [h1, h2]

/-- Whole-pipeline frame: the node processed in place never changes its `name`,
`file` or `redirect`. -/
lemma processPage_fst_frame (pm : PageManager) (idx : PathIndex) (page : NuxtPage) :
    ((processPage pm idx page).1).name = page.name ∧
    ((processPage pm idx page).1).file = page.file ∧
    ((processPage pm idx page).1).redirect = page.redirect := by
  have hloc : ((localizePage pm idx page).1).name = page.name ∧
      ((localizePage pm idx page).1).file = page.file ∧
      ((localizePage pm idx page).1).redirect = page.redirect := by
    simp only [localizePage]
    by_cases hr : isPageRedirectOnly page
    · simp [hr]
    · simp only [hr, Bool.false_eq_true, if_false]
      have hA := addCLAux_fst_frame pm idx pm.locales page (normalizePath page.path) (cloneArray page.children)
      have hB := adjust_frame pm idx
        ((addCustomLocalizedRoutesAux pm idx pm.locales page (normalizePath page.path) (cloneArray page.children)).1)
        (cloneArray page.children)
      simp only [addCustomLocalizedRoutes]
      exact ⟨hB.1.trans hA.1, hB.2.1.trans hA.2.2.1, hB.2.2.trans hA.2.2.2⟩
  simp only [processPage]
  cases hg : lookupA pm.globalLocaleRoutes (page.name.getD "") with
  | none => exact hloc
  | some e =>
    cases e with
    | excluded => simp
    | enabled => exact hloc
    | custom m =>
      have h := addCGAux_fst_frame pm idx pm.locales page m
      exact ⟨h.1, h.2.1, h.2.2.1⟩

/-! ### Claims -/

/-- C5: for every localized page, whatever the number of locales, the
`includeDefaultLocaleRoute` setting and the prefix policy, the node mutated in
place keeps its original `name` field; only `path` and `children` may be
rewritten (`file` and `redirect` are also untouched). -/
theorem c5_inplace_node_keeps_name (pm : PageManager) (idx : PathIndex) (page : NuxtPage) :
    ((processPage pm idx page).1).name = page.name ∧
    ((processPage pm idx page).1).file = page.file ∧
    ((processPage pm idx page).1).redirect = page.redirect :=
  processPage_fst_frame pm idx page

/-- C8: for a default-locale code matching no configured locale, constructing
the `PageManager` does not fail: `defaultLocale` becomes the synthetic
code-only locale. -/
theorem c8_unknown_default_code_synthetic (locales : List Locale) (code : String) (inc : Bool)
    (g : Option (List (String × GlobalRouteEntry)))
    (h : ∀ l ∈ locales, l.code ≠ code) :
    (mkPageManager locales code inc g).defaultLocale = { code := code, iso := none } := by
  have hf : findLocaleByCode locales code = none := by
    simp only [findLocaleByCode, List.find?_eq_none]
    intro l hl
    simpa using h l hl
  simp [mkPageManager, hf]

/-- Witness for C8 at a concrete input: `'de'` among `[{code := 'en'}]`. -/
theorem c8_unknown_default_code_synthetic_witness :
    (∀ l ∈ [({ code := "en" } : Locale)], l.code ≠ "de") ∧
    (mkPageManager [{ code := "en" }] "de" false none).defaultLocale = { code := "de", iso := none } :=
  ⟨by decide, c8_unknown_default_code_synthetic [{ code := "en" }] "de" false none (by decide)⟩

/-- C4: a page whose global override entry is `false` is left untouched — its
processing mutates nothing and contributes no additional routes, for itself or
its descendants (the whole node, children included, is returned unchanged). -/
theorem c4_excluded_page_untouched (pm : PageManager) (idx : PathIndex) (es : ExtractorFn)
    (rootDir : String) (page : NuxtPage)
    (h : lookupA pm.globalLocaleRoutes (page.name.getD "") = some GlobalRouteEntry.excluded) :
    processPage pm idx page = (page, []) ∧ extendPages pm es [page] rootDir = [page] := by
  refine ⟨by simp [processPage, h], ?_⟩
  simp [extendPages, processPage, h]

/-- Witness for C4 at a concrete input: override `{about: false}`. -/
theorem c4_excluded_page_untouched_witness :
    lookupA [("about", GlobalRouteEntry.excluded)] ((NuxtPage.mk (some "about") "/about" none none []).name.getD "") = some GlobalRouteEntry.excluded ∧
    processPage (mkPageManager [{ code := "en" }, { code := "fr" }] "en" false (some [("about", GlobalRouteEntry.excluded)])) []
        (NuxtPage.mk (some "about") "/about" none none []) = (NuxtPage.mk (some "about") "/about" none none [], []) ∧
    extendPages (mkPageManager [{ code := "en" }, { code := "fr" }] "en" false (some [("about", GlobalRouteEntry.excluded)])) (fun _ => none)
        [NuxtPage.mk (some "about") "/about" none none []] "" = [NuxtPage.mk (some "about") "/about" none none []] := by
  have h := c4_excluded_page_untouched
    (mkPageManager [{ code := "en" }, { code := "fr" }] "en" false (some [("about", GlobalRouteEntry.excluded)]))
    [] (fun _ => none) "" (NuxtPage.mk (some "about") "/about" none none []) (by rfl)
  exact ⟨by rfl, h.1, h.2⟩

/-- C3: for a page whose name has an object entry in the global override table,
the override indexer records exactly that global per-locale mapping at the
page's normalized full path, and the embedded page-config extractor is not
consulted for that page (the recorded entry is the same for every extractor):
where both sources define a path, the global override's is the recorded one. -/
theorem c3_global_override_wins (pm : PageManager) (es es2 : ExtractorFn)
    (rootDir parentPath : String) (page : NuxtPage) (m : LocaleMap)
    (h : lookupA pm.globalLocaleRoutes (page.name.getD "") = some (GlobalRouteEntry.custom m)) :
    extractOwnEntry pm es rootDir parentPath page = [(normalizePath (joinPath parentPath page.path), m)] ∧
    extractOwnEntry pm es rootDir parentPath page = extractOwnEntry pm es2 rootDir parentPath page := by
  have key : ∀ es' : ExtractorFn,
      extractOwnEntry pm es' rootDir parentPath page = [(normalizePath (joinPath parentPath page.path), m)] := by
    intro es'
    simp [extractOwnEntry, h, truthyEntry]
  exact ⟨key es, (key es).trans (key es2).symm⟩

/-- Witness for C3 at a concrete input: global `{about: {fr: '/a-propos'}}`
versus an embedded config claiming `{fr: '/embedded'}` for the same page. -/
theorem c3_global_override_wins_witness :
    lookupA [("about", GlobalRouteEntry.custom [("fr", "/a-propos")])] ((NuxtPage.mk (some "about") "/about" (some "pages/about.vue") none []).name.getD "") = some (GlobalRouteEntry.custom [("fr", "/a-propos")]) ∧
    extractOwnEntry (mkPageManager [{ code := "en" }, { code := "fr" }] "en" false (some [("about", GlobalRouteEntry.custom [("fr", "/a-propos")])]))
        (fun _ => some [("fr", "/embedded")]) "" "" (NuxtPage.mk (some "about") "/about" (some "pages/about.vue") none []) =
      [("/about", [("fr", "/a-propos")])] := by
  have h := c3_global_override_wins
    (mkPageManager [{ code := "en" }, { code := "fr" }] "en" false (some [("about", GlobalRouteEntry.custom [("fr", "/a-propos")])]))
    (fun _ => some [("fr", "/embedded")]) (fun _ => none) "" ""
    (NuxtPage.mk (some "about") "/about" (some "pages/about.vue") none []) [("fr", "/a-propos")] (by rfl)
  exact ⟨by rfl, h.1⟩

/-- C10: the redirect-only skip lives only in the default-mode path — a
redirect-only page whose name has an object override entry still receives full
custom-mode handling, while the default-mode handler would have skipped it. -/
theorem c10_redirect_only_skip_default_mode_only (pm : PageManager) (idx : PathIndex)
    (page : NuxtPage) (m : LocaleMap)
    (h1 : lookupA pm.globalLocaleRoutes (page.name.getD "") = some (GlobalRouteEntry.custom m))
    (h2 : isPageRedirectOnly page = true) :
    processPage pm idx page = addCustomGlobalLocalizedRoutes pm idx page m ∧
    localizePage pm idx page = (page, []) := by
  refine ⟨by simp [processPage, h1], ?_⟩
  simp [localizePage, h2]

/-- Witness for C10 at a concrete input: a redirect-only page with a custom
override gets a `'/fr/rr'` sibling, though default mode would skip it. -/
theorem c10_redirect_only_skip_default_mode_only_witness :
    lookupA [("r", GlobalRouteEntry.custom [("fr", "/rr")])] ((NuxtPage.mk (some "r") "/r" none (some "/elsewhere") []).name.getD "") = some (GlobalRouteEntry.custom [("fr", "/rr")]) ∧
    isPageRedirectOnly (NuxtPage.mk (some "r") "/r" none (some "/elsewhere") []) = true ∧
    processPage (mkPageManager [{ code := "en" }, { code := "fr" }] "en" false (some [("r", GlobalRouteEntry.custom [("fr", "/rr")])])) []
        (NuxtPage.mk (some "r") "/r" none (some "/elsewhere") []) =
      addCustomGlobalLocalizedRoutes (mkPageManager [{ code := "en" }, { code := "fr" }] "en" false (some [("r", GlobalRouteEntry.custom [("fr", "/rr")])])) []
        (NuxtPage.mk (some "r") "/r" none (some "/elsewhere") []) [("fr", "/rr")] ∧
    localizePage (mkPageManager [{ code := "en" }, { code := "fr" }] "en" false (some [("r", GlobalRouteEntry.custom [("fr", "/rr")])])) []
        (NuxtPage.mk (some "r") "/r" none (some "/elsewhere") []) = (NuxtPage.mk (some "r") "/r" none (some "/elsewhere") [], []) := by
  have h := c10_redirect_only_skip_default_mode_only
    (mkPageManager [{ code := "en" }, { code := "fr" }] "en" false (some [("r", GlobalRouteEntry.custom [("fr", "/rr")])]))
    [] (NuxtPage.mk (some "r") "/r" none (some "/elsewhere") []) [("fr", "/rr")] (by rfl) (by rfl)
  exact ⟨by rfl, by rfl, h.1, h.2⟩

/-- When no iterated locale has a truthy custom path at the page's full path,
the default-mode custom-path loop is a complete no-op. -/
lemma addCLAux_no_custom (pm : PageManager) (idx : PathIndex) :
    ∀ (locs : List Locale) (page : NuxtPage) (fp : String) (oc : List NuxtPage),
      (∀ l ∈ locs, truthyStr (lookup2 idx fp l.code) = false) →
      addCustomLocalizedRoutesAux pm idx locs page fp oc = (page, []) := by
  intro locs
  induction locs with
  | nil => intro page fp oc h; rfl
  | cons l ls ih =>
    intro page fp oc h
    have hl : truthyStr (lookup2 idx fp l.code) = false := h l (List.mem_cons_self l ls)
    simp only [addCustomLocalizedRoutesAux, hl, Bool.not_false, if_true]
    exact ih page fp oc (fun x hx => h x (List.mem_cons_of_mem l hx))

/-- C1: for a default-mode page (no global override entry, not redirect-only)
with no truthy custom path recorded at its normalized path for any locale, the
run appends exactly one sibling — the grouped route over all of
`activeLocaleCodes` — when that set is non-empty, and none when it is empty;
`extendPages` keeps exactly one copy of the (in-place processed) original node,
followed by the appended siblings. -/
theorem c1_default_mode_grouped_sibling_count (pm : PageManager) (es : ExtractorFn)
    (rootDir : String) (page : NuxtPage)
    (h1 : lookupA pm.globalLocaleRoutes (page.name.getD "") = none)
    (h2 : isPageRedirectOnly page = false)
    (h3 : ∀ c ∈ pm.activeLocaleCodes,
      truthyStr (lookup2 (extractLocalizedPaths pm es [page] rootDir "") (normalizePath page.path) c) = false)
    (h4 : ∀ l ∈ pm.locales,
      truthyStr (lookup2 (extractLocalizedPaths pm es [page] rootDir "") (normalizePath page.path) l.code) = false) :
    (processPage pm (extractLocalizedPaths pm es [page] rootDir "") page).2 =
      (if pm.activeLocaleCodes.isEmpty then [] else
        [createLocalizedRoute pm (extractLocalizedPaths pm es [page] rootDir "") page
          pm.activeLocaleCodes (cloneArray page.children) false]) ∧
    extendPages pm es [page] rootDir =
      (processPage pm (extractLocalizedPaths pm es [page] rootDir "") page).1 ::
        (processPage pm (extractLocalizedPaths pm es [page] rootDir "") page).2 := by
  constructor
  · set idx := extractLocalizedPaths pm es [page] rootDir "" with hidx
    have hfilter : filterLocaleCodesWithoutCustomPaths pm idx (normalizePath page.path) = pm.activeLocaleCodes := by
      simp only [filterLocaleCodesWithoutCustomPaths]
      rw [List.filter_eq_self]
      intro c hc
      simp [h3 c hc]
    have hnoop := addCLAux_no_custom pm idx pm.locales page (normalizePath page.path)
      (cloneArray page.children) (fun l hl => h4 l hl)
    simp only [processPage, h1, localizePage, h2, Bool.false_eq_true, if_false,
      addCustomLocalizedRoutes, hnoop, hfilter]
    cases hA : pm.activeLocaleCodes with
    | nil => simp
    | cons a as => simp [hA]
  · simp [extendPages]

/-- Witness for C1 at a concrete input: two locales, default `'en'` excluded
from the active set, no overrides — one grouped sibling for `['fr']`. -/
theorem c1_default_mode_grouped_sibling_count_witness :
    (processPage (mkPageManager [{ code := "en" }, { code := "fr" }] "en" false (some []))
        (extractLocalizedPaths (mkPageManager [{ code := "en" }, { code := "fr" }] "en" false (some [])) (fun _ => none) [NuxtPage.mk (some "about") "/about" none none []] "" "")
        (NuxtPage.mk (some "about") "/about" none none [])).2 =
      (if (mkPageManager [{ code := "en" }, { code := "fr" }] "en" false (some [])).activeLocaleCodes.isEmpty then [] else
        [createLocalizedRoute (mkPageManager [{ code := "en" }, { code := "fr" }] "en" false (some []))
          (extractLocalizedPaths (mkPageManager [{ code := "en" }, { code := "fr" }] "en" false (some [])) (fun _ => none) [NuxtPage.mk (some "about") "/about" none none []] "" "")
          (NuxtPage.mk (some "about") "/about" none none [])
          (mkPageManager [{ code := "en" }, { code := "fr" }] "en" false (some [])).activeLocaleCodes
          (cloneArray (NuxtPage.mk (some "about") "/about" none none []).children) false]) ∧
    extendPages (mkPageManager [{ code := "en" }, { code := "fr" }] "en" false (some [])) (fun _ => none)
        [NuxtPage.mk (some "about") "/about" none none []] "" =
      (processPage (mkPageManager [{ code := "en" }, { code := "fr" }] "en" false (some []))
        (extractLocalizedPaths (mkPageManager [{ code := "en" }, { code := "fr" }] "en" false (some [])) (fun _ => none) [NuxtPage.mk (some "about") "/about" none none []] "" "")
        (NuxtPage.mk (some "about") "/about" none none [])).1 ::
      (processPage (mkPageManager [{ code := "en" }, { code := "fr" }] "en" false (some []))
        (extractLocalizedPaths (mkPageManager [{ code := "en" }, { code := "fr" }] "en" false (some [])) (fun _ => none) [NuxtPage.mk (some "about") "/about" none none []] "" "")
        (NuxtPage.mk (some "about") "/about" none none [])).2 :=
  c1_default_mode_grouped_sibling_count
    (mkPageManager [{ code := "en" }, { code := "fr" }] "en" false (some [])) (fun _ => none) ""
    (NuxtPage.mk (some "about") "/about" none none [])
    (by rfl) (by rfl) (by decide) (by decide)

/-- Looking a different key up is unaffected by erasing a key. -/
lemma lookupA_eraseKey_ne {α : Type} (m : List (String × α)) (k c : String) (h : k ≠ c) :
    lookupA (eraseKey m c) k = lookupA m k := by
  induction m with
  | nil => rfl
  | cons e rest ih =>
    rcases e with ⟨a, v⟩
    by_cases hac : a = c
    · subst hac
      have h1 : eraseKey ((a, v) :: rest) a = eraseKey rest a := by
        simp [eraseKey, List.filter_cons]
      have h2 : lookupA ((a, v) :: rest) k = lookupA rest k := by
        simp only [lookupA]
        rw [List.find?_cons_of_neg _ (by simp; exact fun hh => h hh.symm)]
      rw [h1, h2]
      exact ih
    · have h1 : eraseKey ((a, v) :: rest) c = (a, v) :: eraseKey rest c := by
        simp [eraseKey, List.filter_cons, hac]
      rw [h1]
      by_cases hak : a = k
      · subst hak
        simp only [lookupA]
        rw [List.find?_cons_of_pos _ (by simp), List.find?_cons_of_pos _ (by simp)]
      · simp only [lookupA]
        rw [List.find?_cons_of_neg _ (by simp [hak]), List.find?_cons_of_neg _ (by simp [hak])]
        exact ih

/-- Looking the erased key up yields nothing. -/
lemma lookupA_eraseKey_self {α : Type} (m : List (String × α)) (c : String) :
    lookupA (eraseKey m c) c = none := by
  induction m with
  | nil => rfl
  | cons e rest ih =>
    rcases e with ⟨a, v⟩
    by_cases hac : a = c
    · have h1 : eraseKey ((a, v) :: rest) c = eraseKey rest c := by
        simp [eraseKey, List.filter_cons, hac]
      rw [h1]; exact ih
    · have h1 : eraseKey ((a, v) :: rest) c = (a, v) :: eraseKey rest c := by
        simp [eraseKey, List.filter_cons, hac]
      rw [h1]
      simp only [lookupA]
      rw [List.find?_cons_of_neg _ (by simp [hac])]
      exact ih

/-- C9: a locale whose custom-path entry is the empty string is treated exactly
like an absent entry — in custom mode the loop behaves as if the key were not
in the override object, and in the custom-path step of default mode as if the
locale were not iterated at all: no sibling is appended for it and the page is
not modified for it (the code tests truthiness, not key presence). -/
theorem c9_empty_string_custom_path_is_absent (pm : PageManager) (idx : PathIndex)
    (page : NuxtPage) (m : LocaleMap) (c fp : String) (oc : List NuxtPage)
    (h1 : lookupA m c = some "")
    (h2 : lookup2 idx fp c = some "") :
    addCustomGlobalLocalizedRoutesAux pm idx pm.locales page m =
      addCustomGlobalLocalizedRoutesAux pm idx pm.locales page (eraseKey m c) ∧
    addCustomLocalizedRoutesAux pm idx pm.locales page fp oc =
      addCustomLocalizedRoutesAux pm idx (pm.locales.filter (fun l => l.code != c)) page fp oc := by
  constructor
  · have key : ∀ (locs : List Locale) (pg : NuxtPage),
        addCustomGlobalLocalizedRoutesAux pm idx locs pg m =
          addCustomGlobalLocalizedRoutesAux pm idx locs pg (eraseKey m c) := by
      intro locs
      induction locs with
      | nil => intro pg; rfl
      | cons l ls ih =>
        intro pg
        by_cases hlc : l.code = c
        · have hm : truthyStr (lookupA m l.code) = false := by rw [hlc, h1]; rfl
          have he : truthyStr (lookupA (eraseKey m c) l.code) = false := by
            rw [hlc, lookupA_eraseKey_self]; rfl
          simp only [addCustomGlobalLocalizedRoutesAux, hm, he, Bool.not_false, if_true]
          exact ih pg
        · have he : lookupA (eraseKey m c) l.code = lookupA m l.code :=
            lookupA_eraseKey_ne m l.code c hlc
          simp only [addCustomGlobalLocalizedRoutesAux, he]
          by_cases ht : truthyStr (lookupA m l.code)
          · by_cases hd : isLocaleDefault l.code pm.defaultLocale pm.includeDefaultLocaleRoute
            · simp only [ht, Bool.not_true, Bool.false_eq_true, if_false, hd, if_true]
              exact ih (pg.setPath (normalizePath ((lookupA m l.code).getD "")))
            · simp only [ht, Bool.not_true, Bool.false_eq_true, if_false, hd]
              rw [ih pg]
          · simp only [ht, Bool.not_false, if_true]
            exact ih pg
    exact key pm.locales page
  · have key : ∀ (locs : List Locale) (pg : NuxtPage),
        addCustomLocalizedRoutesAux pm idx locs pg fp oc =
          addCustomLocalizedRoutesAux pm idx (locs.filter (fun l => l.code != c)) pg fp oc := by
      intro locs
      induction locs with
      | nil => intro pg; rfl
      | cons l ls ih =>
        intro pg
        by_cases hlc : l.code = c
        · have hm : truthyStr (lookup2 idx fp l.code) = false := by rw [hlc, h2]; rfl
          have hf : (l.code != c) = false := by simp [hlc]
          simp only [addCustomLocalizedRoutesAux, hm, Bool.not_false, if_true,
            List.filter_cons, hf, Bool.false_eq_true, if_false]
          exact ih pg
        · have hf : (l.code != c) = true := by simp [hlc]
          simp only [addCustomLocalizedRoutesAux, List.filter_cons, hf, if_true]
          by_cases ht : truthyStr (lookup2 idx fp l.code)
          · by_cases hd : isLocaleDefault l.code pm.defaultLocale pm.includeDefaultLocaleRoute
            · simp only [ht, Bool.not_true, Bool.false_eq_true, if_false, hd, if_true]
              exact ih (pg.setChildren (createLocalizedChildren pm idx oc "" [l.code] false false))
            · simp only [ht, Bool.not_true, Bool.false_eq_true, if_false, hd]
              rw [ih pg]
          · simp only [ht, Bool.not_false, if_true]
            exact ih pg
    exact key pm.locales page

/-- Witness for C9 at a concrete input: `{fr: ''}` both in the override object
and in the localized-path index. -/
theorem c9_empty_string_custom_path_is_absent_witness :
    lookupA [("fr", "")] "fr" = some "" ∧
    lookup2 [("/about", [("fr", "")])] "/about" "fr" = some "" ∧
    addCustomGlobalLocalizedRoutesAux (mkPageManager [{ code := "en" }, { code := "fr" }] "en" false (some [])) [("/about", [("fr", "")])]
        (mkPageManager [{ code := "en" }, { code := "fr" }] "en" false (some [])).locales
        (NuxtPage.mk (some "about") "/about" none none []) [("fr", "")] =
      addCustomGlobalLocalizedRoutesAux (mkPageManager [{ code := "en" }, { code := "fr" }] "en" false (some [])) [("/about", [("fr", "")])]
        (mkPageManager [{ code := "en" }, { code := "fr" }] "en" false (some [])).locales
        (NuxtPage.mk (some "about") "/about" none none []) (eraseKey [("fr", "")] "fr") := by
  have h := c9_empty_string_custom_path_is_absent
    (mkPageManager [{ code := "en" }, { code := "fr" }] "en" false (some [])) [("/about", [("fr", "")])]
    (NuxtPage.mk (some "about") "/about" none none []) [("fr", "")] "fr" "/about" [] (by rfl) (by rfl)
  exact ⟨by rfl, by rfl, h.1⟩

/-- C7 (scenario B): locales en/fr, default `'en'`,
`includeDefaultLocaleRoute = false`, page `about`, global override
`{about: {fr: '/a-propos'}}` — one appended sibling `'/fr/a-propos'` named
`'localized-about-fr'`, original node untouched (`'en'` has no entry). -/
theorem c7_scenario_b_custom_fr_only :
    extendPages
        (mkPageManager [{ code := "en" }, { code := "fr" }] "en" false
          (some [("about", GlobalRouteEntry.custom [("fr", "/a-propos")])]))
        (fun _ => none) [NuxtPage.mk (some "about") "/about" none none []] "" =
      [NuxtPage.mk (some "about") "/about" none none [],
       NuxtPage.mk (some "localized-about-fr") "/fr/a-propos" none none []] := rfl

/-- C2 counterexample (scenario D as claimed): with
`includeDefaultLocaleRoute = true` and override
`{about: {en: '/uber-uns', fr: '/a-propos'}}`, the original node's path is NOT
mutated to `'/en/uber-uns'` — it stays `'/about'` (and the output has three
routes, not two): with the include flag true the default locale is not the
in-place locale, so `'en'` gets its own appended sibling instead. -/
theorem c2_scenario_d_counterexample :
    ((extendPages
        (mkPageManager [{ code := "en" }, { code := "fr" }] "en" true
          (some [("about", GlobalRouteEntry.custom [("en", "/uber-uns"), ("fr", "/a-propos")])]))
        (fun _ => none) [NuxtPage.mk (some "about") "/about" none none []] "").headD
        (NuxtPage.mk none "" none none [])).path = "/about" ∧
    "/about" ≠ "/en/uber-uns" ∧
    (extendPages
        (mkPageManager [{ code := "en" }, { code := "fr" }] "en" true
          (some [("about", GlobalRouteEntry.custom [("en", "/uber-uns"), ("fr", "/a-propos")])]))
        (fun _ => none) [NuxtPage.mk (some "about") "/about" none none []] "").length = 3 :=
  ⟨rfl, by decide, rfl⟩

/-- C2 amended (scenario D as the code computes it): the original node is left
with path `'/about'`, and two siblings are appended — `'en'` at
`'/en/uber-uns'` (locale-prefixed because the include flag is true) named
`'localized-about-en'`, and `'fr'` at `'/fr/a-propos'` named
`'localized-about-fr'`. -/
theorem c2_scenario_d_amended :
    extendPages
        (mkPageManager [{ code := "en" }, { code := "fr" }] "en" true
          (some [("about", GlobalRouteEntry.custom [("en", "/uber-uns"), ("fr", "/a-propos")])]))
        (fun _ => none) [NuxtPage.mk (some "about") "/about" none none []] "" =
      [NuxtPage.mk (some "about") "/about" none none [],
       NuxtPage.mk (some "localized-about-en") "/en/uber-uns" none none [],
       NuxtPage.mk (some "localized-about-fr") "/fr/a-propos" none none []] := rfl

/-! ### Generated route names (C6) -/

/-- Appending on the left cancels in string equations. -/
lemma string_append_cancel_left (s : String) {t u : String} (h : s ++ t = s ++ u) : t = u := by
  apply String.ext
  have hd : s.data ++ t.data = s.data ++ u.data := by
    have := congrArg String.data h
    simpa [String.data_append] using this
  exact List.append_cancel_left hd

/-- The localized-name builder is injective in the locale code (for one base). -/
lemma localizedNameOf_injective (b : String) :
    Function.Injective (fun c => (some ("localized-" ++ b ++ "-" ++ c) : Option String)) := by
  intro c1 c2 h
  simp only [Option.some.injEq] at h
  exact string_append_cancel_left ("localized-" ++ b ++ "-") h

/-- A generated `localized-…` name is never the original base name (it is
strictly longer). -/
lemma localizedName_ne_base (b : Option String) (c : String) :
    (some ("localized-" ++ b.getD "" ++ "-" ++ c) : Option String) ≠ b := by
  cases b with
  | none => simp
  | some s =>
    simp only [Option.getD_some, ne_eq, Option.some.injEq]
    intro h
    have hlen := congrArg String.length h
    simp only [String.length_append] at hlen
    have h10 : "localized-".length = 10 := rfl
    have h1 : "-".length = 1 := rfl
    omega

/-- The head of a non-empty list with a fallback is a member. -/
lemma headD_mem {α : Type} (l : List α) (d : α) (h : l ≠ []) : l.headD d ∈ l := by
  cases l with
  | nil => exact absurd rfl h
  | cons a as => simp [List.headD]

/-- The name a sibling built by `createLocalizedRoute` carries. -/
lemma createLocalizedRoute_name (pm : PageManager) (idx : PathIndex) (pg : NuxtPage)
    (codes : List String) (oc : List NuxtPage) (b : Bool) (cp : String) :
    (createLocalizedRoute pm idx pg codes oc b cp).name =
      some ("localized-" ++ pg.name.getD "" ++ "-" ++ codes.headD "") := by
  simp [createLocalizedRoute, buildRouteName]

/-- Names of the siblings appended by the custom-mode loop: one per iterated
locale whose entry is truthy and which is not the in-place locale. -/
lemma addCGAux_snd_names (pm : PageManager) (idx : PathIndex) (m : LocaleMap) :
    ∀ (locs : List Locale) (page : NuxtPage),
      ((addCustomGlobalLocalizedRoutesAux pm idx locs page m).2).map NuxtPage.name =
        ((locs.filter (fun l => truthyStr (lookupA m l.code) &&
            !(isLocaleDefault l.code pm.defaultLocale pm.includeDefaultLocaleRoute))).map Locale.code).map
          (fun c => some ("localized-" ++ page.name.getD "" ++ "-" ++ c)) := by
  intro locs
  induction locs with
  | nil => intro page; rfl
  | cons l ls ih =>
    intro page
    by_cases ht : truthyStr (lookupA m l.code)
    · by_cases hd : isLocaleDefault l.code pm.defaultLocale pm.includeDefaultLocaleRoute
      · simp only [addCustomGlobalLocalizedRoutesAux, ht, Bool.not_true, Bool.false_eq_true,
          if_false, hd, if_true, List.filter_cons, Bool.and_eq_true, Bool.not_eq_true']
        rw [if_neg (by simp [ht, hd])]
        rw [ih (page.setPath (normalizePath ((lookupA m l.code).getD "")))]
        simp
      · simp only [addCustomGlobalLocalizedRoutesAux, ht, Bool.not_true, Bool.false_eq_true,
          if_false, hd, List.filter_cons]
        rw [if_pos (by simp [ht, hd])]
        simp only [List.map_cons, List.map_map]
        rw [createLocalizedRoute_name, ih page]
        simp [List.map_map, List.headD]
    · simp only [addCustomGlobalLocalizedRoutesAux, ht, Bool.not_false, if_true, List.filter_cons]
      rw [if_neg (by simp [ht])]
      exact ih page

/-- Names of the siblings appended by the default-mode custom-path loop. -/
lemma addCLAux_snd_names (pm : PageManager) (idx : PathIndex) (fp : String) (oc : List NuxtPage) :
    ∀ (locs : List Locale) (page : NuxtPage),
      ((addCustomLocalizedRoutesAux pm idx locs page fp oc).2).map NuxtPage.name =
        ((locs.filter (fun l => truthyStr (lookup2 idx fp l.code) &&
            !(isLocaleDefault l.code pm.defaultLocale pm.includeDefaultLocaleRoute))).map Locale.code).map
          (fun c => some ("localized-" ++ page.name.getD "" ++ "-" ++ c)) := by
  intro locs
  induction locs with
  | nil => intro page; rfl
  | cons l ls ih =>
    intro page
    by_cases ht : truthyStr (lookup2 idx fp l.code)
    · by_cases hd : isLocaleDefault l.code pm.defaultLocale pm.includeDefaultLocaleRoute
      · simp only [addCustomLocalizedRoutesAux, ht, Bool.not_true, Bool.false_eq_true,
          if_false, hd, if_true, List.filter_cons]
        rw [if_neg (by simp [ht, hd])]
        rw [ih (page.setChildren (createLocalizedChildren pm idx oc "" [l.code] false false))]
        simp
      · simp only [addCustomLocalizedRoutesAux, ht, Bool.not_true, Bool.false_eq_true,
          if_false, hd, List.filter_cons]
        rw [if_pos (by simp [ht, hd])]
        simp only [List.map_cons, List.map_map]
        rw [createLocalizedRoute_name, ih page]
        simp [List.map_map, List.headD]
    · simp only [addCustomLocalizedRoutesAux, ht, Bool.not_false, if_true, List.filter_cons]
      rw [if_neg (by simp [ht])]
      exact ih page

/-- The sibling names one default-mode run appends: the grouped route's name
(first code without a custom path) followed by the custom-path siblings' names;
the underlying code list is duplicate-free when the configured codes are. -/
lemma localizePage_codes (pm : PageManager) (idx : PathIndex) (page : NuxtPage) :
    ∃ codes : List String,
      ((localizePage pm idx page).2).map NuxtPage.name =
        codes.map (fun c => some ("localized-" ++ page.name.getD "" ++ "-" ++ c)) ∧
      ((pm.locales.map Locale.code).Nodup → codes.Nodup) := by
  by_cases hr : isPageRedirectOnly page
  · exact ⟨[], by simp [localizePage, hr], fun _ => List.nodup_nil⟩
  · have hsplit : (localizePage pm idx page).2 =
        (if (filterLocaleCodesWithoutCustomPaths pm idx (normalizePath page.path)).length != 0 then
          [createLocalizedRoute pm idx page (filterLocaleCodesWithoutCustomPaths pm idx (normalizePath page.path))
            (cloneArray page.children) false]
        else []) ++
          (addCustomLocalizedRoutesAux pm idx pm.locales page (normalizePath page.path) (cloneArray page.children)).2 := by
      simp [localizePage, hr, addCustomLocalizedRoutes]
    have hCL := addCLAux_snd_names pm idx (normalizePath page.path) (cloneArray page.children) pm.locales page
    have hmemC : ∀ c ∈ (pm.locales.filter (fun l => truthyStr (lookup2 idx (normalizePath page.path) l.code) &&
        !(isLocaleDefault l.code pm.defaultLocale pm.includeDefaultLocaleRoute))).map Locale.code,
        truthyStr (lookup2 idx (normalizePath page.path) c) = true := by
      intro c hc
      rcases List.mem_map.1 hc with ⟨l, hl, hlc⟩
      rcases List.mem_filter.1 hl with ⟨-, hp⟩
      simp only [Bool.and_eq_true] at hp
      rw [← hlc]
      exact hp.1
    have hsub : (pm.locales.map Locale.code).Nodup →
        ((pm.locales.filter (fun l => truthyStr (lookup2 idx (normalizePath page.path) l.code) &&
          !(isLocaleDefault l.code pm.defaultLocale pm.includeDefaultLocaleRoute))).map Locale.code).Nodup := by
      intro h
      exact h.sublist (List.Sublist.map Locale.code (List.filter_sublist pm.locales))
    cases hn : filterLocaleCodesWithoutCustomPaths pm idx (normalizePath page.path) with
    | nil =>
      refine ⟨(pm.locales.filter (fun l => truthyStr (lookup2 idx (normalizePath page.path) l.code) &&
        !(isLocaleDefault l.code pm.defaultLocale pm.includeDefaultLocaleRoute))).map Locale.code, ?_, hsub⟩
      rw [hsplit, hn]
      simpa using hCL
    | cons a as =>
      refine ⟨a :: (pm.locales.filter (fun l => truthyStr (lookup2 idx (normalizePath page.path) l.code) &&
        !(isLocaleDefault l.code pm.defaultLocale pm.includeDefaultLocaleRoute))).map Locale.code, ?_, ?_⟩
      · rw [hsplit, hn]
        simp only [List.length_cons, List.map_append, List.map_cons, List.map_nil]
        rw [if_pos (by simp)]
        simp only [List.map_cons, List.map_nil, List.singleton_append]
        rw [createLocalizedRoute_name]
        rw [hCL]
        simp [List.headD]
      · intro h
        refine List.Nodup.cons ?_ (hsub h)
        intro hmem
        have hfalse : truthyStr (lookup2 idx (normalizePath page.path) a) = false := by
          have ha : a ∈ filterLocaleCodesWithoutCustomPaths pm idx (normalizePath page.path) := by
            rw [hn]; exact List.mem_cons_self a as
          have := (List.mem_filter.1 ha).2
          simpa using this
        have htrue := hmemC a hmem
        rw [hfalse] at htrue
        exact Bool.false_ne_true htrue

/-- The sibling names one `processPage` run appends are the localized-name
images of a list of locale codes which, when the configured locale codes are
pairwise distinct, is itself duplicate-free. -/
lemma processPage_snd_names (pm : PageManager) (idx : PathIndex) (page : NuxtPage) :
    ∃ codes : List String,
      ((processPage pm idx page).2).map NuxtPage.name =
        codes.map (fun c => some ("localized-" ++ page.name.getD "" ++ "-" ++ c)) ∧
      ((pm.locales.map Locale.code).Nodup → codes.Nodup) := by
  have subNodup : ∀ (p : Locale → Bool), (pm.locales.map Locale.code).Nodup →
      ((pm.locales.filter p).map Locale.code).Nodup := by
    intro p h
    exact h.sublist (List.Sublist.map Locale.code (List.filter_sublist pm.locales))
  simp only [processPage]
  cases hg : lookupA pm.globalLocaleRoutes (page.name.getD "") with
  | some e =>
    cases e with
    | excluded => exact ⟨[], rfl, fun _ => List.nodup_nil⟩
    | custom m =>
      refine ⟨(pm.locales.filter (fun l => truthyStr (lookupA m l.code) &&
        !(isLocaleDefault l.code pm.defaultLocale pm.includeDefaultLocaleRoute))).map Locale.code,
        ?_, fun h => subNodup _ h⟩
      simpa [addCustomGlobalLocalizedRoutes] using addCGAux_snd_names pm idx m pm.locales page
    | enabled =>
      exact localizePage_codes pm idx page
  | none =>
    exact localizePage_codes pm idx page

/-- C6 counterexample: two *different* pages in the same sibling group can
produce the same generated name.  With locale codes `a-b`, `b`, `d` (default
`d`), page `p` overridden for `a-b` and page `p-a` overridden for `b`, both
appended siblings are named `localized-p-a-b` although they are distinct
routes — so generated names are NOT pairwise distinct within a sibling group. -/
theorem c6_sibling_group_name_collision_counterexample :
    (extendPages
        (mkPageManager [{ code := "a-b" }, { code := "b" }, { code := "d" }] "d" false
          (some [("p", GlobalRouteEntry.custom [("a-b", "/x")]),
                 ("p-a", GlobalRouteEntry.custom [("b", "/y")])]))
        (fun _ => none)
        [NuxtPage.mk (some "p") "/p" none none [],
         NuxtPage.mk (some "p-a") "/q" none none []] "").map NuxtPage.name =
      [some "p", some "p-a", some "localized-p-a-b", some "localized-p-a-b"] ∧
    (extendPages
        (mkPageManager [{ code := "a-b" }, { code := "b" }, { code := "d" }] "d" false
          (some [("p", GlobalRouteEntry.custom [("a-b", "/x")]),
                 ("p-a", GlobalRouteEntry.custom [("b", "/y")])]))
        (fun _ => none)
        [NuxtPage.mk (some "p") "/p" none none [],
         NuxtPage.mk (some "p-a") "/q" none none []] "").map NuxtPage.path =
      ["/p", "/q", "/a-b/x", "/b/y"] :=
  ⟨rfl, rfl⟩

/-- C6 amended: every sibling route appended for a page is named
`localized-{baseName}-{localeCode}`; the names of the siblings generated *for
one page* are pairwise distinct provided the configured locale codes are
pairwise distinct (across different pages of the same sibling group they can
collide, which the engine does not detect); no appended sibling reuses the
un-suffixed base name — that name stays only on the in-place node. -/
theorem c6_generated_names_amended (pm : PageManager) (idx : PathIndex) (page : NuxtPage)
    (hnd : (pm.locales.map Locale.code).Nodup) :
    (∀ r ∈ (processPage pm idx page).2, ∃ c, r.name = some ("localized-" ++ page.name.getD "" ++ "-" ++ c)) ∧
    ((processPage pm idx page).2.map NuxtPage.name).Nodup ∧
    (∀ r ∈ (processPage pm idx page).2, r.name ≠ page.name) ∧
    ((processPage pm idx page).1).name = page.name := by
  obtain ⟨codes, hchar, hnodup⟩ := processPage_snd_names pm idx page
  have hpat : ∀ r ∈ (processPage pm idx page).2,
      ∃ c, r.name = some ("localized-" ++ page.name.getD "" ++ "-" ++ c) := by
    intro r hr
    have hmem : r.name ∈ (processPage pm idx page).2.map NuxtPage.name :=
      List.mem_map_of_mem NuxtPage.name hr
    rw [hchar] at hmem
    rcases List.mem_map.1 hmem with ⟨c, -, hc⟩
    exact ⟨c, hc.symm⟩
  refine ⟨hpat, ?_, ?_, (processPage_fst_frame pm idx page).1⟩
  · rw [hchar]
    exact (hnodup hnd).map (localizedNameOf_injective (page.name.getD ""))
  · intro r hr
    rcases hpat r hr with ⟨c, hc⟩
    rw [hc]
    exact localizedName_ne_base page.name c

/-- Witness for the amended C6 at a concrete input: locales en/fr (distinct
codes), default `'en'`, no overrides, page `about`. -/
theorem c6_generated_names_amended_witness :
    (∀ r ∈ (processPage (mkPageManager [{ code := "en" }, { code := "fr" }] "en" false (some [])) []
        (NuxtPage.mk (some "about") "/about" none none [])).2,
      ∃ c, r.name = some ("localized-" ++ (NuxtPage.mk (some "about") "/about" none none []).name.getD "" ++ "-" ++ c)) ∧
    ((processPage (mkPageManager [{ code := "en" }, { code := "fr" }] "en" false (some [])) []
        (NuxtPage.mk (some "about") "/about" none none [])).2.map NuxtPage.name).Nodup ∧
    (∀ r ∈ (processPage (mkPageManager [{ code := "en" }, { code := "fr" }] "en" false (some [])) []
        (NuxtPage.mk (some "about") "/about" none none [])).2,
      r.name ≠ (NuxtPage.mk (some "about") "/about" none none []).name) ∧
    ((processPage (mkPageManager [{ code := "en" }, { code := "fr" }] "en" false (some [])) []
        (NuxtPage.mk (some "about") "/about" none none [])).1).name =
      (NuxtPage.mk (some "about") "/about" none none []).name :=
  c6_generated_names_amended (mkPageManager [{ code := "en" }, { code := "fr" }] "en" false (some []))
    [] (NuxtPage.mk (some "about") "/about" none none []) (by decide)

end I18n
